import Mathlib

/-!
Verification development for the LX_CH_Tool2 repository: a shallow embedding of
the pattern-driven column classification engine (`1_Extract_data.py`) and the
chart-data construction pipeline (`data_demo_combine.py`, `data_demo_combined.py`,
`demo_visual.py`), together with theorems settling the specification claims.

Modelling conventions:
- pandas cells are modelled by `Cell` (missing / string / numeric, with numerics
  as exact rationals);
- a pandas `DataFrame` is a column-name list plus a row-major list of cell rows;
- Python exceptions (`KeyError`, `IndexError`, `float()` failures) are modelled
  by `Option`-valued functions returning `none`;
- `re.search` with the two concrete patterns used by the source is implemented
  directly on character lists (the character classes `[0-9.]` and `\d` contain
  no letter, so the greedy matches need no backtracking beyond maximal runs);
- iteration over a Python `set` is modelled by an explicit enumeration function
  passed as a parameter (CPython's set order is interpreter state); the
  canonical instantiation `pySetList` enumerates in first-seen order.
-/

/-! ## String utilities (models of the Python `str` operations used) -/

/-- Model of Python `needle in hay` substring containment, on char lists. -/
def charsContain (needle : List Char) : List Char → Bool
  | [] => needle.isEmpty
  | c :: rest => needle.isPrefixOf (c :: rest) || charsContain needle rest

/-- Model of Python `needle in hay` on strings. -/
def strContains (hay needle : String) : Bool :=
  charsContain needle.data hay.data

/-- Model of Python `s.rstrip(cs)`: drop trailing characters that belong to `cs`. -/
def rstripChars (cs : List Char) (l : List Char) : List Char :=
  (l.reverse.dropWhile (fun c => cs.contains c)).reverse

/-- Model of `hover_info.rstrip('<br>')` from the source: strips any trailing
run of the characters `<`, `b`, `r`, `>`. -/
def pyRstripBr (s : String) : String :=
  String.mk (rstripChars ['<', 'b', 'r', '>'] s.data)

/-- Model of Python `s.strip()` (whitespace at both ends). -/
def pyStrip (s : String) : String :=
  String.mk (((s.data.dropWhile Char.isWhitespace).reverse.dropWhile Char.isWhitespace).reverse)

/-- Model of Python `col.replace('GHz', '')`: remove every occurrence of `GHz`. -/
def removeGHz : List Char → List Char
  | [] => []
  | c :: rest =>
    if ['G', 'H', 'z'].isPrefixOf (c :: rest) then removeGHz (rest.drop 2)
    else c :: removeGHz rest
termination_by l => l.length
decreasing_by
  · simp only [List.length_drop, List.length_cons]; omega
  · simp only [List.length_cons]; omega

/-- Numeric value of a run of decimal digit characters. -/
def digitsToNat (l : List Char) : ℕ :=
  l.foldl (fun a c => a * 10 + (c.toNat - 48)) 0

/-- Exact decimal value `ds.fs` of an integer digit run and a fraction digit run. -/
def decValue (ds fs : List Char) : ℚ :=
  (digitsToNat ds : ℚ) + (digitsToNat fs : ℚ) / (10 : ℚ) ^ fs.length

/-- Model of Python `float(s)` on the plain decimal literals this pipeline
produces (optional sign, digits, at most one dot). Exponent, `inf` and `nan`
forms never reach the `float` calls embedded here and are not modelled. -/
def pyFloat? (s : String) : Option ℚ :=
  let l := s.data
  if l.isEmpty then none
  else
    let h := l.headD ' '
    let sign : ℚ := if h = '-' then -1 else 1
    let l' := if h = '-' ∨ h = '+' then l.drop 1 else l
    let ds := l'.takeWhile Char.isDigit
    let r1 := l'.dropWhile Char.isDigit
    if r1.isEmpty then
      if ds.isEmpty then none else some (sign * (digitsToNat ds : ℚ))
    else if r1.headD ' ' = '.' then
      if ((r1.drop 1).dropWhile Char.isDigit).isEmpty ∧
          (¬ ds.isEmpty ∨ ¬ ((r1.drop 1).takeWhile Char.isDigit).isEmpty) then
        some (sign * decValue ds ((r1.drop 1).takeWhile Char.isDigit))
      else none
    else none

/-- Model of Python `f"{v:.2f}"` for the exact rationals of this development.
When `v * 100` is an integer (every value the pipeline formats under the claims)
no rounding happens and the model is exact; otherwise it rounds half up. -/
def formatF2 (q : ℚ) : String :=
  let n : ℤ := ⌊q * 100 + 1 / 2⌋
  let sign := if n < 0 then "-" else ""
  let m := n.natAbs
  sign ++ toString (m / 100) ++ "." ++ (if m % 100 < 10 then "0" else "") ++ toString (m % 100)

/-! ## Models of the two regular-expression searches of the source

`re.search(r'freq=([0-9.]+)GHz', col)` (`_process_data`) and
`re.search(r'(\d+\.?\d*)GHz', col)` (`_generate_frequency_chart`).
Both character classes exclude `G`, so the greedy quantifiers match the maximal
digit/dot (resp. digit) run at each candidate position and the literal `GHz`
must follow it; the search tries positions left to right. -/

def isDigitDot (c : Char) : Bool := c.isDigit || c = '.'

/-- Attempt `freq=([0-9.]+)GHz` anchored at the head of `l`; returns group 1. -/
def tryFreqAt (l : List Char) : Option (List Char) :=
  if "freq=".data.isPrefixOf l then
    let rest := l.drop 5
    let run := rest.takeWhile isDigitDot
    if ¬ run.isEmpty ∧ "GHz".data.isPrefixOf (rest.dropWhile isDigitDot) then some run
    else none
  else none

/-- `re.search(r'freq=([0-9.]+)GHz', ·)`, returning group 1 of the leftmost match. -/
def searchFreq : List Char → Option (List Char)
  | [] => none
  | c :: rest =>
    match tryFreqAt (c :: rest) with
    | some g => some g
    | none => searchFreq rest

/-- Attempt `(\d+\.?\d*)GHz` anchored at the head of `l`; returns group 1.
(`\d*` can only be followed by `G` when taken maximally, and `\.?` only
matches when a dot is present, so the group is the maximal digit run, the
optional dot, and the maximal following digit run.) -/
def tryNumGHzAt (l : List Char) : Option (List Char) :=
  let ds := l.takeWhile Char.isDigit
  if ds.isEmpty then none
  else
    let r1 := l.dropWhile Char.isDigit
    if r1.headD ' ' = '.' then
      let r2 := r1.drop 1
      if "GHz".data.isPrefixOf (r2.dropWhile Char.isDigit) then
        some (ds ++ '.' :: r2.takeWhile Char.isDigit)
      else none
    else if "GHz".data.isPrefixOf r1 then some ds else none

/-- `re.search(r'(\d+\.?\d*)GHz', ·)`, returning group 1 of the leftmost match. -/
def searchNumGHz : List Char → Option (List Char)
  | [] => none
  | c :: rest =>
    match tryNumGHzAt (c :: rest) with
    | some g => some g
    | none => searchNumGHz rest

/-! ## Data model: cells and data frames -/

/-- A pandas cell: missing (`NaN`), a string, or an (exact rational) number. -/
inductive Cell where
  | na : Cell
  | str : String → Cell
  | num : ℚ → Cell
deriving DecidableEq

/-- Model of Python `str(cell)`. (For numeric cells the source renders the
float's decimal text; the claims never depend on the numeric rendering, and this
model uses the rational's canonical text.) -/
def Cell.toStr : Cell → String
  | .na => "nan"
  | .str s => s
  | .num q => toString q

/-- Model of `str(x) if pd.notna(x) else ""`. -/
def Cell.toStrOrEmpty : Cell → String
  | .na => ""
  | c => c.toStr

/-- Model of Python `float(cell)` for cells read from a data frame: only a
numeric cell has a rational value (a non-numeric cell makes the call fail). -/
def floatCell? : Cell → Option ℚ
  | .num q => some q
  | _ => none

/-- A data frame: named columns over row-major cell rows. -/
structure DataFrame where
  columns : List String
  rows : List (List Cell)
deriving DecidableEq

/-- Model of `df.iloc[i, j]` (positional access). -/
def DataFrame.iloc (df : DataFrame) (i j : ℕ) : Cell :=
  (df.rows.getD i []).getD j .na

/-- Index of a column name (first occurrence). -/
def colIndex (cols : List String) (name : String) : Option ℕ :=
  cols.findIdx? (fun c => c = name)

/-- Model of `df.iloc[i][name]` (label access on row `i`). -/
def DataFrame.cellAt (df : DataFrame) (i : ℕ) (name : String) : Cell :=
  match colIndex df.columns name with
  | some j => df.iloc i j
  | none => .na

/-- Model of `df[name]` as the list of that column's cells, row order. -/
def DataFrame.colCells (df : DataFrame) (name : String) : List Cell :=
  (List.range df.rows.length).map (fun i => df.cellAt i name)

/-! ## `BaseFrequencyChart` data pipeline
(`data_demo_combined.py` / `data_demo_combine.py`; the two copies are
line-for-line identical for every method embedded in this section). -/

/-- Per-column renaming of `_process_data`: a column whose name matches
`freq=([0-9.]+)GHz` is renamed to `f'{group}GHz'`, otherwise kept. -/
def processCol (col : String) : String :=
  match searchFreq col.data with
  | some g => String.mk g ++ "GHz"
  | none => col

/-- `_process_data`: the first `min(15, ncols)` column names are kept, the
remaining ones are renamed by `processCol`. -/
def DataFrame.processData (df : DataFrame) : DataFrame :=
  let infoColumns := min 15 df.columns.length
  { df with columns := df.columns.take infoColumns ++ (df.columns.drop infoColumns).map processCol }

/-- `_extract_frequency_columns`: columns from `start_index` on (the `getattr`
default `16` — no subclass in the source ever sets `start_index`) whose name
contains `GHz`. -/
def extractFrequencyColumns (df : DataFrame) : List String :=
  (df.columns.drop 16).filter (fun c => strContains c "GHz")

/-- The per-column body of `_generate_frequency_chart`: the float value it
computes for a column, when it computes one (primary regex branch, then the
replace/strip/float fallback). In the primary branch `float(group)` cannot fail
— the group matches `\d+\.?\d*` — so the `getD 0` default is unreachable. -/
def generateFreqVal? (col : String) : Option ℚ :=
  match searchNumGHz col.data with
  | some g => some ((pyFloat? (String.mk g)).getD 0)
  | none => pyFloat? (pyStrip (String.mk (removeGHz col.data)))

/-- The per-column label of `_generate_frequency_chart`: the 2-decimal format
of the extracted float, or the cleaned raw text when no float can be parsed. -/
def generateLabel (col : String) : String :=
  match searchNumGHz col.data with
  | some g => formatF2 ((pyFloat? (String.mk g)).getD 0)
  | none =>
    let fstr := pyStrip (String.mk (removeGHz col.data))
    match pyFloat? fstr with
    | some q => formatF2 q
    | none => fstr

/-- `_generate_frequency_chart` over the frequency-column list. -/
def generateFrequencyLabels (freqs : List String) : List String :=
  freqs.map generateLabel

/-! ## Axis range (`_calculate_y_axis_range`, `_calculate_intervals`) -/

/-- The result of `_calculate_y_axis_range`: the raw extrema and the padded
integer bounds. -/
structure AxisRange where
  yMin : ℚ
  yMax : ℚ
  yAxisMin : ℤ
  yAxisMax : ℤ
deriving DecidableEq

/-- Model of `series.dropna()` on a cell list. -/
def dropna (l : List Cell) : List Cell :=
  l.filter (fun c => decide (c ≠ .na))

/-- `all_y_values`: the non-missing cells of every frequency column, column by
column (`extend` = list append). -/
def allYValues (df : DataFrame) (freqs : List String) : List Cell :=
  freqs.flatMap (fun c => dropna (df.colCells c))

/-- Interpret a pool of cells as rationals; `none` models the `TypeError` that
`min`/`math.floor` raise on a pool containing non-numeric values. -/
def cellsToRats : List Cell → Option (List ℚ)
  | [] => some []
  | c :: rest =>
    match floatCell? c, cellsToRats rest with
    | some q, some qs => some (q :: qs)
    | _, _ => none

/-- Model of Python `min` on a nonempty list. -/
def pyMin : List ℚ → Option ℚ
  | [] => none
  | q :: rest => some (rest.foldl min q)

/-- Model of Python `max` on a nonempty list. -/
def pyMax : List ℚ → Option ℚ
  | [] => none
  | q :: rest => some (rest.foldl max q)

/-- `_calculate_y_axis_range` with the `getattr` default `margin = 2`: empty
pool gives the default extrema `(0, 1)`; otherwise the extrema of the pool;
either way the bounds are `floor(min) - margin` and `ceil(max) + margin`. -/
def calculateYAxisRange (df : DataFrame) (freqs : List String) : Option AxisRange :=
  let pool := allYValues df freqs
  let margin : ℤ := 2
  if pool.isEmpty then
    some { yMin := 0, yMax := 1, yAxisMin := ⌊(0 : ℚ)⌋ - margin, yAxisMax := ⌈(1 : ℚ)⌉ + margin }
  else
    match cellsToRats pool with
    | none => none
    | some qs =>
      match pyMin qs, pyMax qs with
      | some mn, some mx =>
        some { yMin := mn, yMax := mx, yAxisMin := ⌊mn⌋ - margin, yAxisMax := ⌈mx⌉ + margin }
      | _, _ => none

/-- `_calculate_intervals`: the tick interval from the padded bounds. -/
def calculateIntervals (r : AxisRange) : ℚ :=
  let yRange : ℤ := r.yAxisMax - r.yAxisMin
  if yRange ≤ 5 then 1 / 2
  else if yRange ≤ 10 then 1
  else ((⌈(yRange : ℚ) / 10⌉ : ℤ) : ℚ)

/-! ## Column classification and dataset partitioning (`1_Extract_data.py`)

The matcher `m` abstracts `re.search(rule, col)`: `some true` is a match,
`some false` a failed search, and `none` models `re.error` (the rule's pattern
does not compile — in Python this raises for every column alike). -/

/-- The classification loop's inner accumulation: the columns appended for one
rule. A column is appended only when `re.search` succeeds and is truthy; a
`re.error` (`none`) is caught, printed and skipped. -/
def matchedColumns (m : String → String → Option Bool) (rule : String)
    (cols : List String) : List String :=
  cols.filter (fun col => m rule col == some true)

/-- Python `dict` insertion: overwrite in place if the key exists, else append. -/
def dictInsert (d : List (String × DataFrame)) (k : String) (v : DataFrame) :
    List (String × DataFrame) :=
  if (d.lookup k).isSome then d.map (fun p => if p.1 = k then (k, v) else p)
  else d ++ [(k, v)]

/-- Model of `df[matched_columns]`: select columns by name, in the given order. -/
def selectColumns (df : DataFrame) (cols : List String) : DataFrame :=
  { columns := cols
    rows := df.rows.map (fun r => cols.map (fun c =>
      match colIndex df.columns c with
      | some j => r.getD j .na
      | none => .na)) }

/-- The classification loop: for each rule in order, if it matched at least one
column, store `df[matched_columns]` under the rule in `classified_data`. -/
def classifiedData (m : String → String → Option Bool) (df : DataFrame)
    (rules : List String) : List (String × DataFrame) :=
  rules.foldl (fun d rule =>
    let mc := matchedColumns m rule df.columns
    if mc.isEmpty then d else dictInsert d rule (selectColumns df mc)) []

/-- `first_15_columns = df.iloc[:, :15]`. -/
def first15 (df : DataFrame) : DataFrame :=
  { columns := df.columns.take 15, rows := df.rows.map (fun r => r.take 15) }

/-- Model of `pd.concat([a, b], axis=1)` for frames over the same row index. -/
def concatCols (a b : DataFrame) : DataFrame :=
  { columns := a.columns ++ b.columns
    rows := (a.rows.zip b.rows).map (fun p => p.1 ++ p.2) }

/-- The save loop over `enumerate(table_header_3)`: for each rule present in
`classified_data`, emit `(filename_base, first15 ++ classified_data[rule])`,
where `filename_base` is the rule's configured name or the `"result"` fallback. -/
def saveLoop (df : DataFrame) (cd : List (String × DataFrame)) (names : List String) :
    ℕ → List String → List (String × DataFrame)
  | _, [] => []
  | i, rule :: rest =>
    match cd.lookup rule with
    | some sub => (names.getD i "result", concatCols (first15 df) sub) :: saveLoop df cd names (i + 1) rest
    | none => saveLoop df cd names (i + 1) rest

/-- The whole extraction batch: classify, then save in original rule order.
(The `rule_to_filename` mapping the script also builds is never read by the
save loop, which recomputes the name from the index; it is not modelled.) -/
def savedDatasets (m : String → String → Option Bool) (df : DataFrame)
    (rules names : List String) : List (String × DataFrame) :=
  saveLoop df (classifiedData m df rules) names 0 rules

/-! ## Chart traces (`go.Scatter` series) -/

/-- The fields of a `go.Scatter` trace that the source sets. Optional fields
model keyword arguments the source omits on some traces. -/
structure Trace where
  name : String
  x : List String
  y : List Cell
  mode : String
  legendgroup : Option String
  showlegend : Bool
  lineColor : String
  lineShape : Option String
  lineWidth : Option ℕ
  lineDash : Option String
  markerColor : Option String
  markerSize : Option ℕ
  hover : String
deriving DecidableEq

instance : Inhabited Trace :=
  ⟨{ name := "", x := [], y := [], mode := "", legendgroup := none, showlegend := false,
     lineColor := "", lineShape := none, lineWidth := none, lineDash := none,
     markerColor := none, markerSize := none, hover := "" }⟩

/-- The fixed 20-entry palette (`available_colors`); note the source repeats
`olive`, faithfully kept. -/
def availableColors : List String :=
  ["red", "blue", "green", "orange", "purple", "brown", "pink", "gray", "olive", "cyan",
   "magenta", "yellow", "black", "lime", "teal", "navy", "maroon", "olive", "indigo", "turquoise"]

/-- Canonical model of iterating `set(l)` for a list of strings: the distinct
values in first-seen order. (CPython's actual set order is interpreter state;
theorems quantify over an arbitrary enumeration and use this one for witnesses.) -/
def pySetListAux (seen : List String) : List String → List String
  | [] => []
  | v :: rest =>
    if v ∈ seen then pySetListAux seen rest
    else v :: pySetListAux (v :: seen) rest

/-- First-seen enumeration of the distinct values of `l`. -/
def pySetList (l : List String) : List String :=
  pySetListAux [] l

/-- The color pre-pass (`for config_val in <values>: if config_val not in
config_color_mapping: assign available_colors[color_index % len]; color_index += 1`),
folded over the enumerated values. -/
def assignColorsAux : List String → List (String × String) → ℕ → List (String × String)
  | [], acc, _ => acc
  | v :: rest, acc, idx =>
    if (acc.lookup v).isSome then assignColorsAux rest acc idx
    else assignColorsAux rest
      (acc ++ [(v, availableColors.getD (idx % availableColors.length) "")]) (idx + 1)

/-- The color mapping built by the pre-pass from an enumerated value sequence. -/
def assignColors (l : List String) : List (String × String) :=
  assignColorsAux l [] 0

/-- Closed form of the pre-pass on an already-deduplicated sequence. -/
def zipPalette : List String → ℕ → List (String × String)
  | [], _ => []
  | v :: rest, idx =>
    (v, availableColors.getD (idx % availableColors.length) "") :: zipPalette rest (idx + 1)

/-- `str(df.iloc[i, 12])`: the configuration (group) value of row `i`. -/
def cfgAt (df : DataFrame) (i : ℕ) : String :=
  (df.iloc i 12).toStr

/-- The group/config values of every row, in row order. -/
def basicPool (df : DataFrame) : List String :=
  (List.range df.rows.length).map (cfgAt df)

/-- The display label: `f"{config}({count})"` when the pool counts the value
more than once, else the bare value. -/
def displayOf (pool : List String) (c : String) : String :=
  if pool.count c > 1 then c ++ "(" ++ toString (pool.count c) ++ ")" else c

/-- `df.iloc[i][frequencies].tolist()`: the row's cells at the frequency columns. -/
def rowY (df : DataFrame) (i : ℕ) (freqs : List String) : List Cell :=
  freqs.map (fun f => df.cellAt i f)

/-- The hover template of the basic charts: `SN` (position 2) and `CONFIG`
(position 12) key/value lines, then trailing `<br>` characters stripped, then
joined with the band/value placeholders. -/
def basicHover (df : DataFrame) (i : ℕ) : String :=
  let info := "<b>SN:</b> " ++ (df.iloc i 2).toStrOrEmpty ++ "<br>"
      ++ "<b>CONFIG:</b> " ++ (df.iloc i 12).toStrOrEmpty ++ "<br>"
  pyRstripBr info ++ "<br>" ++ "<b>Band:</b>%\x7bx:.2f\x7d" ++ "<br>" ++ "<b>Value:</b> %\x7by\x7d"

/-- The per-row trace built by `BasicFrequencyChart.create_traces`. -/
def basicTraceAt (df : DataFrame) (freqs labels : List String) (pool : List String)
    (i : ℕ) (shown : Bool) (color : String) : Trace :=
  { name := displayOf pool (cfgAt df i)
    x := labels
    y := rowY df i freqs
    mode := "lines+markers"
    legendgroup := some (cfgAt df i)
    showlegend := shown
    lineColor := color
    lineShape := some "linear"
    lineWidth := none
    lineDash := none
    markerColor := some color
    markerSize := some 3
    hover := basicHover df i }

/-- The per-row loop of `BasicFrequencyChart.create_traces` (shared verbatim by
both files): `added` models the `added_to_legend` set; a missing key in the
color mapping is the Python `KeyError`, modelled as `none`. -/
def basicLoop (df : DataFrame) (freqs labels : List String)
    (mapping : List (String × String)) (pool : List String) :
    List ℕ → List String → Option (List Trace)
  | [], _ => some []
  | i :: rest, added =>
    match mapping.lookup (cfgAt df i) with
    | none => none
    | some color =>
      let display := displayOf pool (cfgAt df i)
      let shown : Bool := decide (display ∉ added)
      let added' := if display ∈ added then added else display :: added
      match basicLoop df freqs labels mapping pool rest added' with
      | none => none
      | some ts => some (basicTraceAt df freqs labels pool i shown color :: ts)

/-- `BasicFrequencyChart.create_traces` of `data_demo_combine.py`: occurrence
counts and the color pre-pass run over **all** rows, and one trace is built per
row. `enum` is the `set(config_numbers)` enumeration. -/
def combineBasicTraces (enum : List String → List String) (df : DataFrame)
    (freqs labels : List String) : Option (List Trace) :=
  let pool := basicPool df
  basicLoop df freqs labels (assignColors (enum pool)) pool (List.range df.rows.length) []

/-- The group pool of `data_demo_combined.py`'s `BasicFrequencyChart`: rows of
index `≥ 3` only (`range(3, len(self.df))`). -/
def tailPool (df : DataFrame) : List String :=
  (List.range' 3 (df.rows.length - 3)).map (cfgAt df)

/-- `BasicFrequencyChart.create_traces` of `data_demo_combined.py`: occurrence
counts and the color pre-pass run over rows `3..` only, while one trace is
still built for **every** row. -/
def combinedBasicTraces (enum : List String → List String) (df : DataFrame)
    (freqs labels : List String) : Option (List Trace) :=
  let pool := tailPool df
  basicLoop df freqs labels (assignColors (enum pool)) pool (List.range df.rows.length) []

/-! ## `FrequencyChartWithLimits` (`data_demo_combine.py`) -/

/-- The hover template of the limits chart: positions 0–3 labelled
`SN`/`CONFIG`/`PRODUCT`/`ID` (no rstrip in this variant). -/
def limitsHover (df : DataFrame) (i : ℕ) : String :=
  let info := "<b>SN:</b> " ++ (df.iloc i 0).toStrOrEmpty ++ "<br>"
      ++ "<b>CONFIG:</b> " ++ (df.iloc i 1).toStrOrEmpty ++ "<br>"
      ++ "<b>PRODUCT:</b> " ++ (df.iloc i 2).toStrOrEmpty ++ "<br>"
      ++ "<b>ID:</b> " ++ (df.iloc i 3).toStrOrEmpty ++ "<br>"
  info ++ "<br>" ++ "<b>频率:</b> %\x7bx\x7dGHz" ++ "<br>" ++ "<b>测量值:</b> %\x7by\x7d dBm"

/-- The group sequence the limits color pre-pass iterates: rows `3..`, limit
rows skipped, in row order (this variant iterates indices, not a set). -/
def limitsCfgSeq (df : DataFrame) (upper lower : ℕ) : List String :=
  ((List.range' 3 (df.rows.length - 3)).filter (fun i => ¬ (i = upper ∨ i = lower))).map (cfgAt df)

/-- The per-row trace built by `FrequencyChartWithLimits.create_traces`. -/
def limitsTraceAt (df : DataFrame) (freqs labels : List String) (pool : List String)
    (i : ℕ) (shown : Bool) (color : String) : Trace :=
  { name := displayOf pool (cfgAt df i)
    x := labels
    y := rowY df i freqs
    mode := "lines+markers"
    legendgroup := some (cfgAt df i)
    showlegend := shown
    lineColor := color
    lineShape := some "linear"
    lineWidth := none
    lineDash := none
    markerColor := some color
    markerSize := some 3
    hover := limitsHover df i }

/-- The per-row loop of `FrequencyChartWithLimits.create_traces`: rows `3..`
with the two limit rows skipped by `continue`. -/
def limitsLoop (df : DataFrame) (freqs labels : List String)
    (mapping : List (String × String)) (pool : List String) (upper lower : ℕ) :
    List ℕ → List String → Option (List Trace)
  | [], _ => some []
  | i :: rest, added =>
    if i = upper ∨ i = lower then limitsLoop df freqs labels mapping pool upper lower rest added
    else
      match mapping.lookup (cfgAt df i) with
      | none => none
      | some color =>
        let display := displayOf pool (cfgAt df i)
        let shown : Bool := decide (display ∉ added)
        let added' := if display ∈ added then added else display :: added
        match limitsLoop df freqs labels mapping pool upper lower rest added' with
        | none => none
        | some ts => some (limitsTraceAt df freqs labels pool i shown color :: ts)

/-- The dashed, always-in-legend upper-limit reference trace. -/
def limitTraceUpper (labels : List String) (u : ℚ) : Trace :=
  { name := "上限(Upper Limit)"
    x := labels
    y := List.replicate labels.length (.num u)
    mode := "lines"
    legendgroup := none
    showlegend := true
    lineColor := "red"
    lineShape := none
    lineWidth := some 2
    lineDash := some "dash"
    markerColor := none
    markerSize := none
    hover := "<b>上限:</b> " ++ toString u ++ "dBm<extra></extra>" }

/-- The dashed, always-in-legend lower-limit reference trace. -/
def limitTraceLower (labels : List String) (l : ℚ) : Trace :=
  { name := "下限(Lower Limit)"
    x := labels
    y := List.replicate labels.length (.num l)
    mode := "lines"
    legendgroup := none
    showlegend := true
    lineColor := "red"
    lineShape := none
    lineWidth := some 2
    lineDash := some "dash"
    markerColor := none
    markerSize := none
    hover := "<b>下限:</b> " ++ toString l ++ "dBm<extra></extra>" }

/-- `_add_limit_lines`: when there is at least one frequency column, read the
limit rows' values at the first frequency column and append the two constant
reference traces; `none` models the exception when a limit cell has no float
value (or the limit row is absent). -/
def addLimitLines (df : DataFrame) (freqs labels : List String) (upper lower : ℕ)
    (ts : List Trace) : Option (List Trace) :=
  if ¬ freqs.isEmpty then
    match floatCell? (df.cellAt upper (freqs.getD 0 "")),
          floatCell? (df.cellAt lower (freqs.getD 0 "")) with
    | some u, some l => some (ts ++ [limitTraceUpper labels u, limitTraceLower labels l])
    | _, _ => none
  else some ts

/-- `FrequencyChartWithLimits.create_traces` of `data_demo_combine.py`:
occurrence counts over all rows, ordered color pre-pass over rows `3..` minus
the limit rows, per-row traces over the same index range, then the limit lines. -/
def combineLimitsTraces (df : DataFrame) (freqs labels : List String)
    (upper lower : ℕ) : Option (List Trace) :=
  let pool := basicPool df
  let mapping := assignColors (limitsCfgSeq df upper lower)
  match limitsLoop df freqs labels mapping pool upper lower
      (List.range' 3 (df.rows.length - 3)) [] with
  | none => none
  | some body => addLimitLines df freqs labels upper lower body

/-! ## Helper lemmas: association-list lookup and the classification dictionary -/

theorem lookup_append {β : Type} (a b : List (String × β)) (k : String) :
    (a ++ b).lookup k = ((a.lookup k).map some).getD (b.lookup k) := by
  induction a with
  | nil => simp [List.lookup]
  | cons p a ih =>
    cases h : k == p.1 <;> simp [List.lookup, h, ih]

theorem lookup_cons {β : Type} (a : String) (b : β) (l : List (String × β)) (k : String) :
    ((a, b) :: l).lookup k = if k = a then some b else l.lookup k := by
  by_cases h : k = a
  · have hb : (k == a) = true := by simpa using h
    simp [List.lookup, hb, h]
  · have hb : (k == a) = false := by simpa using h
    simp [List.lookup, hb, h]

theorem lookup_map_overwrite {β : Type} (d : List (String × β)) (k k' : String) (v : β) :
    (d.map (fun p => if p.1 = k then (k, v) else p)).lookup k' =
      if k' = k then (if (d.lookup k).isSome then some v else none) else d.lookup k' := by
  induction d with
  | nil => simp [List.lookup]
  | cons p d ih =>
    obtain ⟨a, b⟩ := p
    simp only [List.map_cons]
    by_cases hp : a = k
    · rw [if_pos hp]
      subst hp
      simp only [lookup_cons, ih]
      by_cases hk : k' = a <;> simp [hk]
    · rw [if_neg hp]
      have hka : ¬ k = a := fun h => hp h.symm
      simp only [lookup_cons, ih]
      by_cases hk : k' = a
      · have hne : ¬ k' = k := by rw [hk]; exact hp
        simp only [hk, if_pos rfl, if_neg hp, if_neg hka]
      · by_cases hk2 : k' = k
        · simp only [hk2, if_pos rfl, if_neg hka, if_neg hk]
        · simp only [if_neg hk, if_neg hk2, if_neg hka]

theorem lookup_dictInsert (d : List (String × DataFrame)) (k k' : String) (v : DataFrame) :
    (dictInsert d k v).lookup k' = if k' = k then some v else d.lookup k' := by
  unfold dictInsert
  by_cases hs : (d.lookup k).isSome
  · rw [if_pos hs, lookup_map_overwrite]
    by_cases hk : k' = k
    · simp [hk, hs]
    · simp [hk]
  · rw [if_neg hs, lookup_append]
    by_cases hk : k' = k
    · subst hk
      cases h : d.lookup k' with
      | none => simp [List.lookup]
      | some w => exact absurd (by simp [h]) hs
    · cases h : d.lookup k' with
      | none =>
        have hb : (k' == k) = false := by simpa using hk
        simp [List.lookup, hb, hk]
      | some w => simp [hk]

/-- Lookup into the classification dictionary built over `rules` on top of an
arbitrary starting dictionary `d`. -/
theorem classifiedData_foldl_lookup (m : String → String → Option Bool) (df : DataFrame)
    (rules : List String) (d : List (String × DataFrame)) (r : String) :
    (rules.foldl (fun d rule =>
        let mc := matchedColumns m rule df.columns
        if mc.isEmpty then d else dictInsert d rule (selectColumns df mc)) d).lookup r =
      if r ∈ rules ∧ ¬ (matchedColumns m r df.columns).isEmpty
      then some (selectColumns df (matchedColumns m r df.columns))
      else d.lookup r := by
  induction rules generalizing d with
  | nil => simp
  | cons rule rest ih =>
    simp only [List.foldl_cons]
    by_cases hmc : (matchedColumns m rule df.columns).isEmpty
    · rw [if_pos hmc] at *
      rw [ih]
      by_cases hr : r = rule
      · subst hr
        simp [hmc]
      · simp [List.mem_cons, hr]
    · rw [if_neg hmc]
      rw [ih, lookup_dictInsert]
      by_cases hr : r = rule
      · subst hr
        by_cases hmem : r ∈ rest <;> simp [hmem, hmc]
      · simp [List.mem_cons, hr]

/-- Lookup into `classified_data`: a rule is present iff it is in the rule list
and matched at least one column, and then it maps to `df[matched_columns]`. -/
theorem classifiedData_lookup (m : String → String → Option Bool) (df : DataFrame)
    (rules : List String) (r : String) :
    (classifiedData m df rules).lookup r =
      if r ∈ rules ∧ ¬ (matchedColumns m r df.columns).isEmpty
      then some (selectColumns df (matchedColumns m r df.columns))
      else none := by
  unfold classifiedData
  rw [classifiedData_foldl_lookup]
  simp [List.lookup]

/-- The save loop, projected to its datasets, equals the rule order restricted
to the rules the dictionary contains. -/
theorem saveLoop_map_snd (df : DataFrame) (cd : List (String × DataFrame))
    (names : List String) (sel : String → DataFrame) (p : String → Bool)
    (rs : List String) (i : ℕ)
    (h : ∀ r ∈ rs, cd.lookup r = if p r then some (sel r) else none) :
    (saveLoop df cd names i rs).map Prod.snd =
      (rs.filter p).map (fun r => concatCols (first15 df) (sel r)) := by
  induction rs generalizing i with
  | nil => simp [saveLoop]
  | cons rule rest ih =>
    have hrule := h rule (by simp)
    have hrest : ∀ r ∈ rest, cd.lookup r = if p r then some (sel r) else none :=
      fun r hr => h r (by simp [hr])
    by_cases hp : p rule
    · rw [if_pos hp] at hrule
      simp only [saveLoop, hrule, List.filter_cons, hp]
      simp [ih _ hrest]
    · rw [if_neg hp] at hrule
      simp only [saveLoop, hrule, List.filter_cons]
      rw [if_neg (by simpa using hp)]
      exact ih _ hrest

/-! ## Claims C1, C7, C8 -/

/-- Claim C1: for every rule set and table, the sequence of output datasets of
the extraction batch appears in exactly the rule order restricted to the rules
with at least one matched column; a rule with zero matches is omitted and (the
model being total) raises no error. -/
theorem partition_order_matches_rules (m : String → String → Option Bool)
    (df : DataFrame) (rules names : List String) :
    (savedDatasets m df rules names).map Prod.snd =
      (rules.filter (fun r => ¬ (matchedColumns m r df.columns).isEmpty)).map
        (fun r => concatCols (first15 df) (selectColumns df (matchedColumns m r df.columns))) := by
  unfold savedDatasets
  exact saveLoop_map_snd df (classifiedData m df rules) names
    (fun r => selectColumns df (matchedColumns m r df.columns))
    (fun r => ¬ (matchedColumns m r df.columns).isEmpty) rules 0
    (fun r hr => by
      rw [classifiedData_lookup]
      by_cases h : (matchedColumns m r df.columns).isEmpty
      · simp [h, hr]
      · simp [h, hr])

/-- Claim C7: a rule whose pattern does not compile (`re.search` raises
`re.error` on every column, modelled by the matcher returning `none`) is
assigned no matched columns and contributes nothing to the classification
dictionary: every remaining rule is classified exactly as if the bad rule were
absent, and nothing is fatal. -/
theorem invalid_pattern_skipped (m : String → String → Option Bool) (df : DataFrame)
    (l1 l2 : List String) (r0 : String) (hbad : ∀ col, m r0 col = none) :
    matchedColumns m r0 df.columns = [] ∧
    classifiedData m df (l1 ++ r0 :: l2) = classifiedData m df (l1 ++ l2) := by
  have hmc : matchedColumns m r0 df.columns = [] := by
    unfold matchedColumns
    apply List.filter_eq_nil_iff.mpr
    intro col _
    simp [hbad col]
  refine ⟨hmc, ?_⟩
  unfold classifiedData
  rw [List.foldl_append, List.foldl_append, List.foldl_cons]
  rw [hmc]
  simp

/-- Claim C8 (code bug witness): `_extract_frequency_columns` starts at the
`getattr` default index 16, not 15: on a table whose 16th column (index 15) is
`freq=1.00GHz`, `_process_data` itself renames that column as a measurement
column (to `1.00GHz`), yet frequency extraction drops it and keeps only the
column at index 16. -/
theorem start_index_skips_column_15 :
    (DataFrame.processData
        { columns := List.replicate 15 "meta" ++ ["freq=1.00GHz", "freq=2.00GHz"],
          rows := [] }).columns.getD 15 "" = "1.00GHz" ∧
    strContains "1.00GHz" "GHz" = true ∧
    extractFrequencyColumns (DataFrame.processData
        { columns := List.replicate 15 "meta" ++ ["freq=1.00GHz", "freq=2.00GHz"],
          rows := [] }) = ["2.00GHz"] := by
  refine ⟨?_, ?_, ?_⟩ <;> decide

/-- An example matcher: every pattern matches every column except the
distinguished pattern `bad[`, on which the regex engine raises. -/
def exampleMatcher : String → String → Option Bool :=
  fun p _ => if p = "bad[" then none else some true

/-- An example table for the classification witnesses. -/
def exampleDf : DataFrame :=
  { columns := ["SerialNumber", "freq=1.00GHz"], rows := [[.str "sn1", .num 3]] }

/-- Witness for C7 at a concrete matcher, table and rule list. -/
theorem invalid_pattern_skipped_witness :
    matchedColumns exampleMatcher "bad[" exampleDf.columns = [] ∧
    classifiedData exampleMatcher exampleDf ["a", "bad[", "b"] =
      classifiedData exampleMatcher exampleDf ["a", "b"] :=
  invalid_pattern_skipped exampleMatcher exampleDf ["a"] ["b"] "bad[" (fun _ => rfl)

/-! ## Helper lemmas: axis-range computation -/

theorem cellsToRats_of_all_num (l : List Cell) (h : ∀ c ∈ l, (floatCell? c).isSome) :
    cellsToRats l = some (l.filterMap floatCell?) := by
  induction l with
  | nil => simp [cellsToRats]
  | cons c rest ih =>
    obtain ⟨q, hq⟩ : ∃ q, c = Cell.num q := by
      cases c with
      | num q => exact ⟨q, rfl⟩
      | na => exact absurd (h .na (by simp)) (by simp [floatCell?])
      | str s => exact absurd (h (.str s) (by simp)) (by simp [floatCell?])
    subst hq
    simp only [cellsToRats, ih (fun c hc => h c (by simp [hc]))]
    simp [floatCell?, List.filterMap_cons]

theorem foldl_min_all_eq (v : ℚ) (l : List ℚ) (h : ∀ q ∈ l, q = v) :
    l.foldl min v = v := by
  induction l with
  | nil => rfl
  | cons q rest ih =>
    have hq := h q (by simp)
    subst hq
    simp only [List.foldl_cons, min_self]
    exact ih (fun q hq => h q (by simp [hq]))

theorem foldl_max_all_eq (v : ℚ) (l : List ℚ) (h : ∀ q ∈ l, q = v) :
    l.foldl max v = v := by
  induction l with
  | nil => rfl
  | cons q rest ih =>
    have hq := h q (by simp)
    subst hq
    simp only [List.foldl_cons, max_self]
    exact ih (fun q hq => h q (by simp [hq]))

theorem pyMin_all_eq (v : ℚ) (l : List ℚ) (hne : l ≠ []) (h : ∀ q ∈ l, q = v) :
    pyMin l = some v := by
  cases l with
  | nil => exact absurd rfl hne
  | cons q rest =>
    have hq := h q (by simp)
    subst hq
    simp only [pyMin, Option.some.injEq]
    exact foldl_min_all_eq _ rest (fun q hq => h q (by simp [hq]))

theorem pyMax_all_eq (v : ℚ) (l : List ℚ) (hne : l ≠ []) (h : ∀ q ∈ l, q = v) :
    pyMax l = some v := by
  cases l with
  | nil => exact absurd rfl hne
  | cons q rest =>
    have hq := h q (by simp)
    subst hq
    simp only [pyMax, Option.some.injEq]
    exact foldl_max_all_eq _ rest (fun q hq => h q (by simp [hq]))

/-! ## Claims C5 and C6 -/

/-- Claim C5: when the frequency columns contain at least one non-missing value
(all of them numeric), the computed axis range is `floor(min) - margin` to
`ceil(max) + margin` with the default margin 2; the tick interval is `0.5` for
a padded range of at most 5, `1` for at most 10, and `ceil(range/10)` beyond;
and a dataset whose values are one constant `v` gets `[floor v - 2, ceil v + 2]`
with interval `0.5`. -/
theorem axis_range_policy (df : DataFrame) (freqs : List String)
    (hnum : ∀ c ∈ allYValues df freqs, (floatCell? c).isSome)
    (hne : allYValues df freqs ≠ []) :
    ∃ mn mx,
      pyMin ((allYValues df freqs).filterMap floatCell?) = some mn ∧
      pyMax ((allYValues df freqs).filterMap floatCell?) = some mx ∧
      calculateYAxisRange df freqs =
        some { yMin := mn, yMax := mx, yAxisMin := ⌊mn⌋ - 2, yAxisMax := ⌈mx⌉ + 2 } ∧
      (∀ r : AxisRange, r.yAxisMax - r.yAxisMin ≤ 5 → calculateIntervals r = 1 / 2) ∧
      (∀ r : AxisRange, 5 < r.yAxisMax - r.yAxisMin → r.yAxisMax - r.yAxisMin ≤ 10 →
        calculateIntervals r = 1) ∧
      (∀ r : AxisRange, 10 < r.yAxisMax - r.yAxisMin →
        calculateIntervals r = ((⌈((r.yAxisMax - r.yAxisMin : ℤ) : ℚ) / 10⌉ : ℤ) : ℚ)) ∧
      (∀ v : ℚ, (∀ c ∈ allYValues df freqs, c = Cell.num v) →
        calculateYAxisRange df freqs =
          some { yMin := v, yMax := v, yAxisMin := ⌊v⌋ - 2, yAxisMax := ⌈v⌉ + 2 } ∧
        calculateIntervals { yMin := v, yMax := v, yAxisMin := ⌊v⌋ - 2, yAxisMax := ⌈v⌉ + 2 } = 1 / 2) := by
  have hq : cellsToRats (allYValues df freqs) =
      some ((allYValues df freqs).filterMap floatCell?) :=
    cellsToRats_of_all_num _ hnum
  have hqs_ne : (allYValues df freqs).filterMap floatCell? ≠ [] := by
    cases hp : allYValues df freqs with
    | nil => exact absurd hp hne
    | cons c rest =>
      have hc := hnum c (by rw [hp]; simp)
      obtain ⟨q, hq'⟩ : ∃ q, c = Cell.num q := by
        cases c with
        | num q => exact ⟨q, rfl⟩
        | na => exact absurd hc (by simp [floatCell?])
        | str s => exact absurd hc (by simp [floatCell?])
      subst hq'
      simp [List.filterMap_cons, floatCell?]
  obtain ⟨mn, hmn⟩ : ∃ mn, pyMin ((allYValues df freqs).filterMap floatCell?) = some mn := by
    cases hqq : (allYValues df freqs).filterMap floatCell? with
    | nil => exact absurd hqq hqs_ne
    | cons q rest => exact ⟨rest.foldl min q, rfl⟩
  obtain ⟨mx, hmx⟩ : ∃ mx, pyMax ((allYValues df freqs).filterMap floatCell?) = some mx := by
    cases hqq : (allYValues df freqs).filterMap floatCell? with
    | nil => exact absurd hqq hqs_ne
    | cons q rest => exact ⟨rest.foldl max q, rfl⟩
  have hempty : (allYValues df freqs).isEmpty = false := by
    cases hp : allYValues df freqs with
    | nil => exact absurd hp hne
    | cons c rest => rfl
  refine ⟨mn, mx, hmn, hmx, ?_, ?_, ?_, ?_, ?_⟩
  · simp only [calculateYAxisRange, hempty, Bool.false_eq_true, if_false, hq, hmn, hmx]
  · intro r h
    simp only [calculateIntervals, if_pos h]
  · intro r h1 h2
    simp only [calculateIntervals, if_neg (by omega : ¬ r.yAxisMax - r.yAxisMin ≤ 5), if_pos h2]
  · intro r h
    simp only [calculateIntervals, if_neg (by omega : ¬ r.yAxisMax - r.yAxisMin ≤ 5),
      if_neg (by omega : ¬ r.yAxisMax - r.yAxisMin ≤ 10)]
  · intro v hv
    have hall : ∀ q ∈ (allYValues df freqs).filterMap floatCell?, q = v := by
      intro q hqmem
      obtain ⟨c, hcmem, hfc⟩ := List.mem_filterMap.mp hqmem
      rw [hv c hcmem] at hfc
      simpa [floatCell?] using hfc.symm
    have hmnv : pyMin ((allYValues df freqs).filterMap floatCell?) = some v :=
      pyMin_all_eq v _ hqs_ne hall
    have hmxv : pyMax ((allYValues df freqs).filterMap floatCell?) = some v :=
      pyMax_all_eq v _ hqs_ne hall
    constructor
    · simp only [calculateYAxisRange, hempty, Bool.false_eq_true, if_false, hq, hmnv, hmxv]
    · have hc := Int.ceil_le_floor_add_one v
      simp only [calculateIntervals]
      rw [if_pos (by omega : (⌈v⌉ + 2 : ℤ) - (⌊v⌋ - 2) ≤ 5)]

/-- Witness for C5 at a concrete one-column, constant-value table. -/
theorem axis_range_policy_witness :
    ∃ mn mx,
      pyMin ((allYValues { columns := ["f"], rows := [[.num 3], [.num 3]] } ["f"]).filterMap floatCell?) = some mn ∧
      pyMax ((allYValues { columns := ["f"], rows := [[.num 3], [.num 3]] } ["f"]).filterMap floatCell?) = some mx ∧
      calculateYAxisRange { columns := ["f"], rows := [[.num 3], [.num 3]] } ["f"] =
        some { yMin := mn, yMax := mx, yAxisMin := ⌊mn⌋ - 2, yAxisMax := ⌈mx⌉ + 2 } ∧
      (∀ r : AxisRange, r.yAxisMax - r.yAxisMin ≤ 5 → calculateIntervals r = 1 / 2) ∧
      (∀ r : AxisRange, 5 < r.yAxisMax - r.yAxisMin → r.yAxisMax - r.yAxisMin ≤ 10 →
        calculateIntervals r = 1) ∧
      (∀ r : AxisRange, 10 < r.yAxisMax - r.yAxisMin →
        calculateIntervals r = ((⌈((r.yAxisMax - r.yAxisMin : ℤ) : ℚ) / 10⌉ : ℤ) : ℚ)) ∧
      (∀ v : ℚ, (∀ c ∈ allYValues { columns := ["f"], rows := [[.num 3], [.num 3]] } ["f"], c = Cell.num v) →
        calculateYAxisRange { columns := ["f"], rows := [[.num 3], [.num 3]] } ["f"] =
          some { yMin := v, yMax := v, yAxisMin := ⌊v⌋ - 2, yAxisMax := ⌈v⌉ + 2 } ∧
        calculateIntervals { yMin := v, yMax := v, yAxisMin := ⌊v⌋ - 2, yAxisMax := ⌈v⌉ + 2 } = 1 / 2) :=
  axis_range_policy { columns := ["f"], rows := [[.num 3], [.num 3]] } ["f"]
    (by decide) (by decide)

/-- Claim C6: with no non-missing values at all, the axis computation does not
fail and produces the default extrema `(0, 1)` (hence padded bounds `[-2, 3]`
under the default margin). -/
theorem empty_pool_default_range (df : DataFrame) (freqs : List String)
    (h : allYValues df freqs = []) :
    calculateYAxisRange df freqs =
      some { yMin := 0, yMax := 1, yAxisMin := -2, yAxisMax := 3 } := by
  simp only [calculateYAxisRange, h, List.isEmpty_nil, if_true]
  norm_num

/-- Witness for C6 at a concrete table with a frequency column but no rows. -/
theorem empty_pool_default_range_witness :
    calculateYAxisRange { columns := ["f"], rows := [] } ["f"] =
      some { yMin := 0, yMax := 1, yAxisMin := -2, yAxisMax := 3 } :=
  empty_pool_default_range { columns := ["f"], rows := [] } ["f"] (by decide)

/-! ## Helper lemmas: color assignment -/

theorem mem_pySetListAux (l : List String) : ∀ (seen : List String) (s : String),
    s ∈ pySetListAux seen l ↔ s ∈ l ∧ s ∉ seen := by
  induction l with
  | nil => intro seen s; simp [pySetListAux]
  | cons v rest ih =>
    intro seen s
    by_cases hv : v ∈ seen
    · rw [pySetListAux, if_pos hv, ih]
      constructor
      · rintro ⟨hs, hns⟩
        exact ⟨by simp [hs], hns⟩
      · rintro ⟨hs, hns⟩
        rcases List.mem_cons.mp hs with h | h
        · subst h; exact absurd hv hns
        · exact ⟨h, hns⟩
    · rw [pySetListAux, if_neg hv]
      constructor
      · intro hs
        rcases List.mem_cons.mp hs with h | h
        · subst h; exact ⟨by simp, hv⟩
        · obtain ⟨h1, h2⟩ := (ih _ _).mp h
          refine ⟨by simp [h1], ?_⟩
          intro hc
          exact h2 (by simp [hc])
      · rintro ⟨hs, hns⟩
        rcases List.mem_cons.mp hs with h | h
        · subst h; simp
        · by_cases hsv : s = v
          · subst hsv; simp
          · refine List.mem_cons.mpr (Or.inr ((ih _ _).mpr ⟨h, ?_⟩))
            intro hc
            rcases List.mem_cons.mp hc with h' | h'
            · exact hsv h'
            · exact hns h'

theorem nodup_pySetListAux (l : List String) : ∀ seen : List String,
    (pySetListAux seen l).Nodup := by
  induction l with
  | nil => intro seen; simp [pySetListAux]
  | cons v rest ih =>
    intro seen
    by_cases hv : v ∈ seen
    · rw [pySetListAux, if_pos hv]; exact ih seen
    · rw [pySetListAux, if_neg hv]
      refine List.nodup_cons.mpr ⟨?_, ih _⟩
      intro hc
      exact ((mem_pySetListAux rest _ v).mp hc).2 (by simp)

theorem pySetListAux_id (l : List String) : ∀ seen : List String,
    l.Nodup → (∀ s ∈ l, s ∉ seen) → pySetListAux seen l = l := by
  induction l with
  | nil => intro seen _ _; rfl
  | cons v rest ih =>
    intro seen hnd hdisj
    rw [pySetListAux, if_neg (hdisj v (by simp))]
    congr 1
    refine ih _ (List.nodup_cons.mp hnd).2 ?_
    intro s hs hc
    rcases List.mem_cons.mp hc with h | h
    · subst h; exact (List.nodup_cons.mp hnd).1 hs
    · exact hdisj s (by simp [hs]) h

theorem pySetList_idem (l : List String) : pySetList (pySetList l) = pySetList l :=
  pySetListAux_id _ _ (nodup_pySetListAux l []) (by simp)

theorem mem_pySetList (l : List String) (s : String) : s ∈ pySetList l ↔ s ∈ l := by
  rw [pySetList, mem_pySetListAux]
  simp

/-- The pre-pass fold equals the closed-form palette zip of the first-seen
deduplication, for any accumulator whose keys are exactly `seen`. -/
theorem assignColorsAux_eq_zip (l : List String) :
    ∀ (acc : List (String × String)) (idx : ℕ) (seen : List String),
    (∀ s, (acc.lookup s).isSome ↔ s ∈ seen) →
    assignColorsAux l acc idx = acc ++ zipPalette (pySetListAux seen l) idx := by
  induction l with
  | nil => intro acc idx seen _; simp [assignColorsAux, pySetListAux, zipPalette]
  | cons v rest ih =>
    intro acc idx seen hinv
    by_cases hv : v ∈ seen
    · rw [assignColorsAux, if_pos ((hinv v).mpr hv), pySetListAux, if_pos hv]
      exact ih acc idx seen hinv
    · rw [assignColorsAux, if_neg (by rw [hinv v]; exact hv), pySetListAux, if_neg hv]
      rw [ih _ _ (v :: seen) ?_]
      · rw [zipPalette, List.append_assoc]
        rfl
      · intro s
        rw [lookup_append]
        cases h : acc.lookup s with
        | some w =>
          constructor
          · intro _
            exact List.mem_cons.mpr (Or.inr ((hinv s).mp (by simp [h])))
          · intro _
            rfl
        | none =>
          by_cases hsv : s = v
          · subst hsv
            simp [lookup_cons, List.lookup]
          · have h2 : s ∉ seen := fun hc => by
              have hx := (hinv s).mpr hc
              rw [h] at hx
              simp at hx
            have hb : (s == v) = false := by simpa using hsv
            simp [lookup_cons, List.lookup, hb, hsv, h2, List.mem_cons]

/-- `assignColors` equals the palette zip of the first-seen distinct values. -/
theorem assignColors_eq_zip (l : List String) :
    assignColors l = zipPalette (pySetList l) 0 := by
  rw [assignColors, pySetList, assignColorsAux_eq_zip l [] 0 [] (by simp [List.lookup])]
  rfl

theorem palette_getD_mem (k : ℕ) :
    availableColors.getD (k % availableColors.length) "" ∈ availableColors := by
  have hlen : 0 < availableColors.length := by decide
  have hlt : k % availableColors.length < availableColors.length := Nat.mod_lt _ hlen
  rw [List.getD_eq_getElem _ _ hlt]
  exact List.getElem_mem hlt

theorem zipPalette_lookup_nodup (l : List String) : ∀ (idx : ℕ), l.Nodup →
    ∀ (k : ℕ) (hk : k < l.length),
    (zipPalette l idx).lookup (l.get ⟨k, hk⟩) =
      some (availableColors.getD ((idx + k) % availableColors.length) "") := by
  induction l with
  | nil => intro idx _ k hk; exact absurd hk (by simp)
  | cons v rest ih =>
    intro idx hnd k hk
    cases k with
    | zero =>
      simp [zipPalette, lookup_cons]
    | succ k =>
      have hv : v ∉ rest := (List.nodup_cons.mp hnd).1
      have hget : (v :: rest).get ⟨k + 1, hk⟩ = rest.get ⟨k, by simpa using hk⟩ := rfl
      rw [hget, zipPalette, lookup_cons,
        if_neg (fun hc => hv (by rw [← hc]; exact List.get_mem _ _ _)),
        ih (idx + 1) (List.nodup_cons.mp hnd).2 k (by simpa using hk),
        show idx + 1 + k = idx + (k + 1) from by omega]

theorem zipPalette_lookup_isSome (l : List String) : ∀ (idx : ℕ) (s : String),
    s ∈ l → ((zipPalette l idx).lookup s).isSome := by
  induction l with
  | nil => intro idx s hs; exact absurd hs (by simp)
  | cons v rest ih =>
    intro idx s hs
    rw [zipPalette, lookup_cons]
    by_cases hsv : s = v
    · rw [if_pos hsv]; rfl
    · rw [if_neg hsv]
      exact ih (idx + 1) s (by rcases List.mem_cons.mp hs with h | h; exact absurd h hsv; exact h)

theorem zipPalette_lookup_mem_palette (l : List String) : ∀ (idx : ℕ) (s c : String),
    (zipPalette l idx).lookup s = some c → c ∈ availableColors := by
  induction l with
  | nil => intro idx s c hc; simp [zipPalette, List.lookup] at hc
  | cons v rest ih =>
    intro idx s c hc
    rw [zipPalette, lookup_cons] at hc
    by_cases hsv : s = v
    · rw [if_pos hsv] at hc
      have hce : availableColors.getD (idx % availableColors.length) "" = c := by
        injection hc
      rw [← hce]
      exact palette_getD_mem idx
    · rw [if_neg hsv] at hc
      exact ih (idx + 1) s c hc

/-- Every group value of the enumerated sequence gets a color. -/
theorem assignColors_lookup_isSome (l : List String) (s : String) (hs : s ∈ l) :
    ((assignColors l).lookup s).isSome := by
  rw [assignColors_eq_zip]
  exact zipPalette_lookup_isSome _ 0 s ((mem_pySetList l s).mpr hs)

/-- Every color the pre-pass assigns comes from the fixed palette. -/
theorem assignColors_lookup_mem_palette (l : List String) (s c : String)
    (hc : (assignColors l).lookup s = some c) : c ∈ availableColors := by
  rw [assignColors_eq_zip] at hc
  exact zipPalette_lookup_mem_palette _ 0 s c hc

/-! ## Helper lemmas: the per-row trace loop -/

/-- The display labels of a list of row indices, in order. -/
def displaysOf (df : DataFrame) (pool : List String) (idxs : List ℕ) : List String :=
  idxs.map (fun j => displayOf pool (cfgAt df j))

theorem mem_insertIf (added : List String) (d x : String) :
    (x ∈ (if d ∈ added then added else d :: added)) ↔ (x ∈ added ∨ x = d) := by
  by_cases h : d ∈ added
  · rw [if_pos h]
    constructor
    · exact Or.inl
    · rintro (hx | hx)
      · exact hx
      · exact hx ▸ h
  · rw [if_neg h]
    rw [List.mem_cons]
    tauto

/-- Full characterization of the basic per-row loop: when every row's group has
a color, the loop succeeds, produces one trace per index, and the `k`-th trace
is the row's trace with the legend flag set exactly when the row's display
label is new relative to the initial `added` set and the earlier rows. -/
theorem basicLoop_char (df : DataFrame) (freqs labels : List String)
    (mapping : List (String × String)) (pool : List String) :
    ∀ (idxs : List ℕ) (added : List String),
    (∀ i ∈ idxs, ((mapping.lookup (cfgAt df i)).isSome : Prop)) →
    ∃ ts, basicLoop df freqs labels mapping pool idxs added = some ts ∧
      ts.length = idxs.length ∧
      ∀ (k : ℕ) (hk : k < idxs.length) (hk' : k < ts.length),
        ts.get ⟨k, hk'⟩ =
          basicTraceAt df freqs labels pool (idxs.get ⟨k, hk⟩)
            (decide (displayOf pool (cfgAt df (idxs.get ⟨k, hk⟩)) ∉
              added ++ displaysOf df pool (idxs.take k)))
            ((mapping.lookup (cfgAt df (idxs.get ⟨k, hk⟩))).getD "") := by
  intro idxs
  induction idxs with
  | nil =>
    intro added _
    exact ⟨[], rfl, rfl, fun k hk _ => absurd hk (by simp)⟩
  | cons i rest ih =>
    intro added hlk
    obtain ⟨color, hc⟩ := Option.isSome_iff_exists.mp (hlk i (by simp))
    obtain ⟨ts', hts', hlen', hspec'⟩ :=
      ih (if displayOf pool (cfgAt df i) ∈ added then added
          else displayOf pool (cfgAt df i) :: added)
        (fun j hj => hlk j (by simp [hj]))
    refine ⟨basicTraceAt df freqs labels pool i
        (decide (displayOf pool (cfgAt df i) ∉ added)) color :: ts', ?_, by simpa using hlen', ?_⟩
    · rw [basicLoop, hc]
      simp only [hts']
    · intro k hk hk'
      cases k with
      | zero =>
        simp only [List.get, List.take, displaysOf, List.map_nil, List.append_nil]
        rw [hc]
        rfl
      | succ k =>
        have hk2 : k < rest.length := by simpa using hk
        have hk2' : k < ts'.length := by rw [hlen']; exact hk2
        have hget : (basicTraceAt df freqs labels pool i
            (decide (displayOf pool (cfgAt df i) ∉ added)) color :: ts').get ⟨k + 1, hk'⟩ =
            ts'.get ⟨k, hk2'⟩ := rfl
        rw [hget, hspec' k hk2 hk2']
        have hmem : (displayOf pool (cfgAt df (rest.get ⟨k, hk2⟩)) ∈
            (if displayOf pool (cfgAt df i) ∈ added then added
             else displayOf pool (cfgAt df i) :: added) ++ displaysOf df pool (rest.take k)) ↔
            (displayOf pool (cfgAt df (rest.get ⟨k, hk2⟩)) ∈
              added ++ displaysOf df pool ((i :: rest).take (k + 1))) := by
          simp only [displaysOf, List.mem_append, mem_insertIf, List.mem_cons,
            List.take_succ_cons, List.map_cons]
          tauto
        have hdec : decide (displayOf pool (cfgAt df (rest.get ⟨k, hk2⟩)) ∉
            (if displayOf pool (cfgAt df i) ∈ added then added
             else displayOf pool (cfgAt df i) :: added) ++ displaysOf df pool (rest.take k)) =
            decide (displayOf pool (cfgAt df (rest.get ⟨k, hk2⟩)) ∉
              added ++ displaysOf df pool ((i :: rest).take (k + 1))) := by
          apply decide_eq_decide.mpr
          exact not_congr hmem
        rw [hdec]
        rfl

/-! ## Claims C10 and C4 -/

/-- Claim C10: in `data_demo_combined.py`'s `BasicFrequencyChart.create_traces`
the counts and the color pre-pass run over rows `3..` only while a trace is
built for every row; when every configuration value of rows 0–2 also occurs in
some row of index `≥ 3`, the per-row color lookup never fails (the missing-key
error branch is unreachable) and one trace per row is produced. -/
theorem combined_basic_no_keyerror (enum : List String → List String)
    (df : DataFrame) (freqs labels : List String)
    (henum : ∀ s ∈ tailPool df, s ∈ enum (tailPool df))
    (hpre : ∀ i : ℕ, i < 3 → i < df.rows.length → cfgAt df i ∈ tailPool df) :
    ∃ ts, combinedBasicTraces enum df freqs labels = some ts ∧
      ts.length = df.rows.length := by
  have hlk : ∀ i ∈ List.range df.rows.length,
      (((assignColors (enum (tailPool df))).lookup (cfgAt df i)).isSome : Prop) := by
    intro i hi
    have hin : cfgAt df i ∈ tailPool df := by
      by_cases h3 : i < 3
      · exact hpre i h3 (List.mem_range.mp hi)
      · refine List.mem_map.mpr ⟨i, ?_, rfl⟩
        rw [List.mem_range'_1]
        have := List.mem_range.mp hi
        omega
    exact assignColors_lookup_isSome _ _ (henum _ hin)
  obtain ⟨ts, hts, hlen, _⟩ :=
    basicLoop_char df freqs labels (assignColors (enum (tailPool df))) (tailPool df)
      (List.range df.rows.length) [] hlk
  exact ⟨ts, hts, by simpa using hlen⟩

/-- A four-row table whose configuration value is `C` on every row. -/
def allCDf : DataFrame :=
  { columns := []
    rows := [List.replicate 12 Cell.na ++ [Cell.str "C"],
             List.replicate 12 Cell.na ++ [Cell.str "C"],
             List.replicate 12 Cell.na ++ [Cell.str "C"],
             List.replicate 12 Cell.na ++ [Cell.str "C"]] }

/-- Witness for C10 at a concrete table (rows 0–2 share their config with row 3). -/
theorem combined_basic_no_keyerror_witness :
    ∃ ts, combinedBasicTraces pySetList allCDf [] [] = some ts ∧
      ts.length = allCDf.rows.length :=
  combined_basic_no_keyerror pySetList allCDf [] [] (by decide) (by decide)

/-- Claim C4: color assignment is deterministic and stable. In first-seen
distinct order the `k`-th group gets palette color `k mod 20`; every assigned
color is from the fixed palette; the mapping is a function of the first-seen
order of the distinct group values alone (so re-running over the same dataset
reproduces it); and in a chart build every row of the same group gets the same
palette color. -/
theorem color_assignment_deterministic :
    (∀ (l : List String), l.Nodup → ∀ (k : ℕ) (hk : k < l.length),
      (assignColors l).lookup (l.get ⟨k, hk⟩) =
        some (availableColors.getD (k % availableColors.length) "")) ∧
    (∀ (l : List String) (s c : String),
      (assignColors l).lookup s = some c → c ∈ availableColors) ∧
    (∀ l : List String, assignColors l = assignColors (pySetList l)) ∧
    (∀ (enum : List String → List String) (df : DataFrame) (freqs labels : List String),
      (∀ s ∈ basicPool df, s ∈ enum (basicPool df)) →
      ∃ ts, combineBasicTraces enum df freqs labels = some ts ∧
        ts.length = df.rows.length ∧
        ∀ (i j : ℕ) (hi : i < ts.length) (hj : j < ts.length),
          cfgAt df i = cfgAt df j →
          (ts.get ⟨i, hi⟩).lineColor = (ts.get ⟨j, hj⟩).lineColor ∧
          (ts.get ⟨i, hi⟩).lineColor ∈ availableColors) := by
  refine ⟨?_, ?_, ?_, ?_⟩
  · intro l hnd k hk
    rw [assignColors_eq_zip, pySetList, pySetListAux_id l [] hnd (by simp)]
    simpa using zipPalette_lookup_nodup l 0 hnd k hk
  · intro l s c hc
    exact assignColors_lookup_mem_palette l s c hc
  · intro l
    rw [assignColors_eq_zip, assignColors_eq_zip, pySetList_idem]
  · intro enum df freqs labels henum
    have hlk : ∀ i ∈ List.range df.rows.length,
        (((assignColors (enum (basicPool df))).lookup (cfgAt df i)).isSome : Prop) := by
      intro i hi
      refine assignColors_lookup_isSome _ _ (henum _ ?_)
      exact List.mem_map.mpr ⟨i, hi, rfl⟩
    obtain ⟨ts, hts, hlen, hspec⟩ :=
      basicLoop_char df freqs labels (assignColors (enum (basicPool df))) (basicPool df)
        (List.range df.rows.length) [] hlk
    refine ⟨ts, hts, by simpa using hlen, ?_⟩
    intro i j hi hj hcfg
    have hi2 : i < (List.range df.rows.length).length := by rw [← hlen]; exact hi
    have hj2 : j < (List.range df.rows.length).length := by rw [← hlen]; exact hj
    have hgi : (List.range df.rows.length).get ⟨i, hi2⟩ = i := List.get_range i hi2
    have hgj : (List.range df.rows.length).get ⟨j, hj2⟩ = j := List.get_range j hj2
    have hsi := hspec i hi2 hi
    have hsj := hspec j hj2 hj
    rw [hgi] at hsi
    rw [hgj] at hsj
    have hcolor_i : (ts.get ⟨i, hi⟩).lineColor =
        ((assignColors (enum (basicPool df))).lookup (cfgAt df i)).getD "" := by
      rw [hsi]; rfl
    have hcolor_j : (ts.get ⟨j, hj⟩).lineColor =
        ((assignColors (enum (basicPool df))).lookup (cfgAt df j)).getD "" := by
      rw [hsj]; rfl
    constructor
    · rw [hcolor_i, hcolor_j, hcfg]
    · obtain ⟨c, hc⟩ := Option.isSome_iff_exists.mp
        (hlk i (List.mem_range.mpr (by rw [hlen] at hi; simpa using hi)))
      rw [hcolor_i, hc]
      exact assignColors_lookup_mem_palette _ _ _ hc

/-- Witness for C4: the second distinct group gets the second palette color, the
mapping is reproduced from the first-seen order, and a concrete chart build
gives equal same-group row colors. -/
theorem color_assignment_deterministic_witness :
    (assignColors ["A", "B"]).lookup "B" = some "blue" ∧
    assignColors ["A", "B", "A"] = assignColors (pySetList ["A", "B", "A"]) ∧
    (∃ ts, combineBasicTraces pySetList allCDf [] [] = some ts ∧
      ts.length = allCDf.rows.length ∧
      ∀ (i j : ℕ) (hi : i < ts.length) (hj : j < ts.length),
        cfgAt allCDf i = cfgAt allCDf j →
        (ts.get ⟨i, hi⟩).lineColor = (ts.get ⟨j, hj⟩).lineColor ∧
        (ts.get ⟨i, hi⟩).lineColor ∈ availableColors) := by
  refine ⟨?_, color_assignment_deterministic.2.2.1 ["A", "B", "A"],
    color_assignment_deterministic.2.2.2 pySetList allCDf [] [] (by decide)⟩
  have h := color_assignment_deterministic.1 ["A", "B"] (by decide) 1 (by decide)
  exact h

/-! ## Claim C3 -/

/-- Claim C3 (amended): legend deduplication is keyed on the *display label*
(group value with optional count suffix). Provided the display labels of
distinct groups do not collide, per distinct group exactly one per-unit series
shows in the legend — the series of the first row of that group — and every
row of a group keeps the same color and legend-group key. -/
theorem legend_first_row_per_group (enum : List String → List String) (df : DataFrame)
    (freqs labels : List String)
    (henum : ∀ s ∈ basicPool df, s ∈ enum (basicPool df))
    (hinj : ∀ i j : ℕ, i < df.rows.length → j < df.rows.length →
      displayOf (basicPool df) (cfgAt df i) = displayOf (basicPool df) (cfgAt df j) →
      cfgAt df i = cfgAt df j) :
    ∃ ts, combineBasicTraces enum df freqs labels = some ts ∧
      ts.length = df.rows.length ∧
      (∀ (i j : ℕ) (hi : i < ts.length) (hj : j < ts.length), cfgAt df i = cfgAt df j →
        (ts.get ⟨i, hi⟩).lineColor = (ts.get ⟨j, hj⟩).lineColor ∧
        (ts.get ⟨i, hi⟩).legendgroup = (ts.get ⟨j, hj⟩).legendgroup) ∧
      (∀ (j : ℕ) (hj : j < ts.length),
        ((ts.get ⟨j, hj⟩).showlegend = true ↔ ∀ k : ℕ, k < j → cfgAt df k ≠ cfgAt df j)) ∧
      (∀ g : String, (∃ i, i < df.rows.length ∧ cfgAt df i = g) →
        ∃! j : ℕ, j < df.rows.length ∧ cfgAt df j = g ∧
          (ts.getD j default).showlegend = true) := by
  have hlk : ∀ i ∈ List.range df.rows.length,
      (((assignColors (enum (basicPool df))).lookup (cfgAt df i)).isSome : Prop) := by
    intro i hi
    refine assignColors_lookup_isSome _ _ (henum _ ?_)
    exact List.mem_map.mpr ⟨i, hi, rfl⟩
  obtain ⟨ts, hts, hlen, hspec⟩ :=
    basicLoop_char df freqs labels (assignColors (enum (basicPool df))) (basicPool df)
      (List.range df.rows.length) [] hlk
  have hlen' : ts.length = df.rows.length := by simpa using hlen
  have hdesc : ∀ (j : ℕ) (hj : j < ts.length),
      ts.get ⟨j, hj⟩ = basicTraceAt df freqs labels (basicPool df) j
        (decide (displayOf (basicPool df) (cfgAt df j) ∉
          displaysOf df (basicPool df) (List.range j)))
        (((assignColors (enum (basicPool df))).lookup (cfgAt df j)).getD "") := by
    intro j hj
    have hj2 : j < (List.range df.rows.length).length := by rw [← hlen]; exact hj
    have hjn : j < df.rows.length := by rw [← hlen']; exact hj
    have hs := hspec j hj2 hj
    rw [List.get_range j hj2] at hs
    have htr : (List.range df.rows.length).take j = List.range j := by
      rw [List.take_range]
      congr 1
      exact min_eq_left (le_of_lt hjn)
    rw [List.nil_append, htr] at hs
    exact hs
  have hiff : ∀ (j : ℕ) (hj : j < ts.length),
      ((ts.get ⟨j, hj⟩).showlegend = true ↔ ∀ k : ℕ, k < j → cfgAt df k ≠ cfgAt df j) := by
    intro j hj
    have hjn : j < df.rows.length := by rw [← hlen']; exact hj
    rw [hdesc j hj]
    show decide (displayOf (basicPool df) (cfgAt df j) ∉
      displaysOf df (basicPool df) (List.range j)) = true ↔ _
    rw [decide_eq_true_eq]
    constructor
    · intro hP k hkj hceq
      refine absurd ?_ hP
      exact List.mem_map.mpr ⟨k, List.mem_range.mpr hkj, by rw [hceq]⟩
    · intro hall hmem
      obtain ⟨k, hkmem, hkeq⟩ := List.mem_map.mp hmem
      have hkj : k < j := List.mem_range.mp hkmem
      have hkn : k < df.rows.length := by omega
      exact hall k hkj (hinj k j hkn hjn hkeq)
  refine ⟨ts, hts, hlen', ?_, hiff, ?_⟩
  · intro i j hi hj hcfg
    constructor
    · rw [hdesc i hi, hdesc j hj]
      show ((assignColors (enum (basicPool df))).lookup (cfgAt df i)).getD "" = _
      rw [hcfg]
      rfl
    · rw [hdesc i hi, hdesc j hj]
      show some (cfgAt df i) = some (cfgAt df j)
      rw [hcfg]
  · intro g hg
    have hm := Nat.find_spec hg
    set m := Nat.find hg with hmdef
    have hmin : ∀ k, k < m → ¬ (k < df.rows.length ∧ cfgAt df k = g) :=
      fun k hk => Nat.find_min hg hk
    have hmts : m < ts.length := by rw [hlen']; exact hm.1
    have hshown_m : (ts.getD m default).showlegend = true := by
      rw [List.getD_eq_get ts default hmts]
      refine (hiff m hmts).mpr ?_
      intro k hkm hceq
      exact hmin k hkm ⟨by omega, hceq.symm ▸ hm.2⟩
    refine ⟨m, ⟨hm.1, hm.2, hshown_m⟩, ?_⟩
    rintro j ⟨hjn, hjg, hjs⟩
    have hjts : j < ts.length := by rw [hlen']; exact hjn
    rw [List.getD_eq_get ts default hjts] at hjs
    have hall := (hiff j hjts).mp hjs
    by_contra hne
    rcases Nat.lt_or_ge j m with hlt | hge
    · exact hmin j hlt ⟨hjn, hjg⟩
    · have hmj : m < j := lt_of_le_of_ne hge (fun h => hne (h.symm))
      exact hall m hmj (hm.2.trans hjg.symm)

/-- The display-label collision table: configuration values `A`, `A(2)`, `A`.
`A` occurs twice, so its display label is `A(2)` — colliding with the genuine
group `A(2)`. -/
def collisionDf : DataFrame :=
  { columns := []
    rows := [List.replicate 12 Cell.na ++ [Cell.str "A"],
             List.replicate 12 Cell.na ++ [Cell.str "A(2)"],
             List.replicate 12 Cell.na ++ [Cell.str "A"]] }

/-- Counterexample to C3 as stated: on `collisionDf` the distinct group value
`A(2)` is present (row 1), a trace is built for it, yet **no** trace of that
group has `showlegend = true` — the first (and only) row of group `A(2)` is
suppressed because legend deduplication keys on the display label, which the
group `A` already claimed. -/
theorem legend_per_group_counterexample :
    cfgAt collisionDf 1 = "A(2)" ∧
    ((combineBasicTraces pySetList collisionDf [] []).getD []).length = 3 ∧
    (((combineBasicTraces pySetList collisionDf [] []).getD []).filter
      (fun t => decide (t.legendgroup = some "A(2)") && t.showlegend)).length = 0 := by
  refine ⟨?_, ?_, ?_⟩ <;> decide

/-- Witness for the amended C3 at a collision-free concrete table
(configurations `A`, `B`, `A`: display labels `A(2)` and `B` are injective on
the groups). -/
def abaDf : DataFrame :=
  { columns := []
    rows := [List.replicate 12 Cell.na ++ [Cell.str "A"],
             List.replicate 12 Cell.na ++ [Cell.str "B"],
             List.replicate 12 Cell.na ++ [Cell.str "A"]] }

/-- Witness for C3 (amended form) at `abaDf`. -/
theorem legend_first_row_per_group_witness :
    ∃ ts, combineBasicTraces pySetList abaDf [] [] = some ts ∧
      ts.length = abaDf.rows.length ∧
      (∀ (i j : ℕ) (hi : i < ts.length) (hj : j < ts.length),
        cfgAt abaDf i = cfgAt abaDf j →
        (ts.get ⟨i, hi⟩).lineColor = (ts.get ⟨j, hj⟩).lineColor ∧
        (ts.get ⟨i, hi⟩).legendgroup = (ts.get ⟨j, hj⟩).legendgroup) ∧
      (∀ (j : ℕ) (hj : j < ts.length),
        ((ts.get ⟨j, hj⟩).showlegend = true ↔ ∀ k : ℕ, k < j → cfgAt abaDf k ≠ cfgAt abaDf j)) ∧
      (∀ g : String, (∃ i, i < abaDf.rows.length ∧ cfgAt abaDf i = g) →
        ∃! j : ℕ, j < abaDf.rows.length ∧ cfgAt abaDf j = g ∧
          (ts.getD j default).showlegend = true) :=
  legend_first_row_per_group pySetList abaDf [] [] (by decide)
    (by
      intro i j hi hj h
      have h3 : abaDf.rows.length = 3 := rfl
      rw [h3] at hi hj
      interval_cases i <;> interval_cases j <;> revert h <;> decide)

/-! ## Claim C2 -/

/-- The limits per-row loop: when every non-limit row's group has a color, the
loop succeeds with one solid `lines+markers` trace per non-limit index. -/
theorem limitsLoop_some (df : DataFrame) (freqs labels : List String)
    (mapping : List (String × String)) (pool : List String) (upper lower : ℕ) :
    ∀ (idxs : List ℕ) (added : List String),
    (∀ i ∈ idxs, ¬ (i = upper ∨ i = lower) → ((mapping.lookup (cfgAt df i)).isSome : Prop)) →
    ∃ ts, limitsLoop df freqs labels mapping pool upper lower idxs added = some ts ∧
      ts.length = (idxs.filter (fun i => ¬ (i = upper ∨ i = lower))).length ∧
      ∀ t ∈ ts, t.lineDash = none ∧ t.mode = "lines+markers" := by
  intro idxs
  induction idxs with
  | nil =>
    intro added _
    exact ⟨[], rfl, rfl, by simp⟩
  | cons i rest ih =>
    intro added hlk
    by_cases hlim : i = upper ∨ i = lower
    · obtain ⟨ts, hts, hlen, hprop⟩ := ih added (fun j hj => hlk j (by simp [hj]))
      refine ⟨ts, ?_, ?_, hprop⟩
      · rw [limitsLoop, if_pos hlim]
        exact hts
      · rw [List.filter_cons]
        have hd : (decide ¬ (i = upper ∨ i = lower)) = false := by
          rw [decide_eq_false_iff_not]
          exact not_not_intro hlim
        rw [hd]
        simpa using hlen
    · obtain ⟨color, hc⟩ := Option.isSome_iff_exists.mp (hlk i (by simp) hlim)
      obtain ⟨ts, hts, hlen, hprop⟩ :=
        ih (if displayOf pool (cfgAt df i) ∈ added then added
            else displayOf pool (cfgAt df i) :: added)
          (fun j hj => hlk j (by simp [hj]))
      refine ⟨limitsTraceAt df freqs labels pool i
          (decide (displayOf pool (cfgAt df i) ∉ added)) color :: ts, ?_, ?_, ?_⟩
      · rw [limitsLoop, if_neg hlim, hc]
        simp only [hts]
      · rw [List.filter_cons]
        have hd : (decide ¬ (i = upper ∨ i = lower)) = true := by
          rw [decide_eq_true_eq]
          exact hlim
        rw [hd]
        simpa using hlen
      · intro t ht
        rcases List.mem_cons.mp ht with h | h
        · subst h
          exact ⟨rfl, rfl⟩
        · exact hprop t h

/-- Claim C2: with the default limit rows 1 and 2 and at least one frequency
column holding numeric limit values, the limits chart excludes the limit rows
from the per-unit series (which cover exactly the rows of index `≥ 3`, all
solid) and appends exactly two dashed, always-in-legend constant reference
series at the upper/lower limit values, replicated across all axis positions
— regardless of how many per-unit rows exist. -/
theorem limits_chart_reference_series (df : DataFrame) (freqs labels : List String)
    (u l : ℚ) (hfreqs : freqs ≠ [])
    (hu : df.cellAt 1 (freqs.getD 0 "") = Cell.num u)
    (hl : df.cellAt 2 (freqs.getD 0 "") = Cell.num l) :
    ∃ body, combineLimitsTraces df freqs labels 1 2 =
        some (body ++ [limitTraceUpper labels u, limitTraceLower labels l]) ∧
      body.length = df.rows.length - 3 ∧
      (∀ t ∈ body, t.lineDash = none ∧ t.mode = "lines+markers") ∧
      ((body ++ [limitTraceUpper labels u, limitTraceLower labels l]).filter
        (fun t => decide (t.lineDash = some "dash"))).length = 2 ∧
      (limitTraceUpper labels u).y = List.replicate labels.length (Cell.num u) ∧
      (limitTraceUpper labels u).showlegend = true ∧
      (limitTraceLower labels l).y = List.replicate labels.length (Cell.num l) ∧
      (limitTraceLower labels l).showlegend = true := by
  have hbound : ∀ i ∈ List.range' 3 (df.rows.length - 3), 3 ≤ i := by
    intro i hi
    exact (List.mem_range'_1.mp hi).1
  have hlk : ∀ i ∈ List.range' 3 (df.rows.length - 3), ¬ (i = 1 ∨ i = 2) →
      (((assignColors (limitsCfgSeq df 1 2)).lookup (cfgAt df i)).isSome : Prop) := by
    intro i hi hlim
    refine assignColors_lookup_isSome _ _ ?_
    unfold limitsCfgSeq
    refine List.mem_map.mpr ⟨i, ?_, rfl⟩
    rw [List.mem_filter]
    exact ⟨hi, by simpa using hlim⟩
  obtain ⟨body, hbody, hblen, hbprop⟩ :=
    limitsLoop_some df freqs labels (assignColors (limitsCfgSeq df 1 2)) (basicPool df) 1 2
      (List.range' 3 (df.rows.length - 3)) [] hlk
  have hfilter : (List.range' 3 (df.rows.length - 3)).filter
      (fun i => ¬ (i = 1 ∨ i = 2)) = List.range' 3 (df.rows.length - 3) := by
    refine List.filter_eq_self.mpr ?_
    intro i hi
    have h3 := hbound i hi
    simp only [decide_eq_true_eq]
    omega
  have hblen' : body.length = df.rows.length - 3 := by
    rw [hblen, hfilter]
    simp [List.length_range']
  have hempty : freqs.isEmpty = false := by
    cases freqs with
    | nil => exact absurd rfl hfreqs
    | cons f rest => rfl
  have hmain : combineLimitsTraces df freqs labels 1 2 =
      some (body ++ [limitTraceUpper labels u, limitTraceLower labels l]) := by
    simp only [combineLimitsTraces]
    rw [hbody]
    simp only [addLimitLines]
    rw [if_pos (by simp [hempty]), hu, hl]
    rfl
  refine ⟨body, hmain, hblen', hbprop, ?_, rfl, rfl, rfl, rfl⟩
  rw [List.filter_append]
  have hbody_nil : body.filter (fun t => decide (t.lineDash = some "dash")) = [] := by
    refine List.filter_eq_nil_iff.mpr ?_
    intro t ht
    have := (hbprop t ht).1
    simp [this]
  rw [hbody_nil]
  rfl

/-- A four-row limit-bearing table: row 1 holds the upper limit `10`, row 2 the
lower limit `-10` in the single frequency column; row 3 is the only data row. -/
def limitsDf : DataFrame :=
  { columns := List.replicate 15 "m" ++ ["1.00GHz"]
    rows := [List.replicate 12 Cell.na ++ [Cell.str "H", Cell.na, Cell.na, Cell.num 1],
             List.replicate 12 Cell.na ++ [Cell.str "H", Cell.na, Cell.na, Cell.num 10],
             List.replicate 12 Cell.na ++ [Cell.str "H", Cell.na, Cell.na, Cell.num (-10)],
             List.replicate 12 Cell.na ++ [Cell.str "A", Cell.na, Cell.na, Cell.num 5]] }

/-- Witness for C2 at `limitsDf` (upper limit `10`, lower limit `-10`). -/
theorem limits_chart_reference_series_witness :
    ∃ body, combineLimitsTraces limitsDf ["1.00GHz"] ["1.00"] 1 2 =
        some (body ++ [limitTraceUpper ["1.00"] 10, limitTraceLower ["1.00"] (-10)]) ∧
      body.length = limitsDf.rows.length - 3 ∧
      (∀ t ∈ body, t.lineDash = none ∧ t.mode = "lines+markers") ∧
      ((body ++ [limitTraceUpper ["1.00"] 10, limitTraceLower ["1.00"] (-10)]).filter
        (fun t => decide (t.lineDash = some "dash"))).length = 2 ∧
      (limitTraceUpper ["1.00"] 10).y = List.replicate (["1.00"] : List String).length (Cell.num 10) ∧
      (limitTraceUpper ["1.00"] 10).showlegend = true ∧
      (limitTraceLower ["1.00"] (-10)).y =
        List.replicate (["1.00"] : List String).length (Cell.num (-10)) ∧
      (limitTraceLower ["1.00"] (-10)).showlegend = true :=
  limits_chart_reference_series limitsDf ["1.00GHz"] ["1.00"] 10 (-10)
    (by decide) (by decide) (by decide)

/-! ## Claim C9 -/

theorem mk_append_data (g : List Char) (s : String) :
    (String.mk g ++ s).data = g ++ s.data := by
  cases s
  rfl

theorem tryNumGHzAt_dotted (ds fs : List Char) (hds : ds ≠ [])
    (hdsd : ∀ c ∈ ds, c.isDigit) (hfsd : ∀ c ∈ fs, c.isDigit) :
    tryNumGHzAt (ds ++ '.' :: (fs ++ "GHz".data)) = some (ds ++ '.' :: fs) := by
  have htw : (ds ++ '.' :: (fs ++ "GHz".data)).takeWhile Char.isDigit = ds := by
    rw [List.takeWhile_append_of_pos hdsd, List.takeWhile_cons_of_neg (by decide)]
    simp
  have hdw : (ds ++ '.' :: (fs ++ "GHz".data)).dropWhile Char.isDigit =
      '.' :: (fs ++ "GHz".data) := by
    rw [List.dropWhile_append_of_pos hdsd, List.dropWhile_cons_of_neg (by decide)]
  have htw2 : (fs ++ "GHz".data).takeWhile Char.isDigit = fs := by
    rw [List.takeWhile_append_of_pos hfsd,
      show ("GHz".data.takeWhile Char.isDigit) = [] from by decide]
    simp
  have hdw2 : (fs ++ "GHz".data).dropWhile Char.isDigit = "GHz".data := by
    rw [List.dropWhile_append_of_pos hfsd]
    decide
  have hne : ds.isEmpty = false := by
    cases ds with
    | nil => exact absurd rfl hds
    | cons d ds' => rfl
  simp only [tryNumGHzAt, htw, hdw, hne, Bool.false_eq_true, if_false,
    List.headD_cons, List.drop_one, List.tail_cons, htw2, hdw2]
  simp

theorem tryNumGHzAt_plain (ds : List Char) (hds : ds ≠ [])
    (hdsd : ∀ c ∈ ds, c.isDigit) :
    tryNumGHzAt (ds ++ "GHz".data) = some ds := by
  have htw : (ds ++ "GHz".data).takeWhile Char.isDigit = ds := by
    rw [List.takeWhile_append_of_pos hdsd,
      show ("GHz".data.takeWhile Char.isDigit) = [] from by decide]
    simp
  have hdw : (ds ++ "GHz".data).dropWhile Char.isDigit = "GHz".data := by
    rw [List.dropWhile_append_of_pos hdsd]
    decide
  have hne : ds.isEmpty = false := by
    cases ds with
    | nil => exact absurd rfl hds
    | cons d ds' => rfl
  simp only [tryNumGHzAt, htw, hdw, hne, Bool.false_eq_true, if_false]
  simp

theorem searchNumGHz_head (c : Char) (rest g : List Char)
    (h : tryNumGHzAt (c :: rest) = some g) : searchNumGHz (c :: rest) = some g := by
  rw [searchNumGHz, h]

theorem decValue_nil (ds : List Char) : decValue ds [] = (digitsToNat ds : ℚ) := by
  simp [decValue, digitsToNat, List.foldl_nil]

theorem char_digit_not_sign (c : Char) (h : c.isDigit) : ¬ (c = '-' ∨ c = '+') := by
  rintro (rfl | rfl) <;> exact absurd h (by decide)

theorem pyFloat?_digits_dot (ds fs : List Char) (hds : ds ≠ [])
    (hdsd : ∀ c ∈ ds, c.isDigit) (hfsd : ∀ c ∈ fs, c.isDigit) :
    pyFloat? (String.mk (ds ++ '.' :: fs)) = some (decValue ds fs) := by
  obtain ⟨d, ds', rfl⟩ : ∃ d ds', ds = d :: ds' := by
    cases ds with
    | nil => exact absurd rfl hds
    | cons d ds' => exact ⟨d, ds', rfl⟩
  have hd : d.isDigit := hdsd d (by simp)
  have hsign := char_digit_not_sign d hd
  have hl : ((d :: ds') ++ '.' :: fs) = d :: (ds' ++ '.' :: fs) := rfl
  have htw : ((d :: ds') ++ '.' :: fs).takeWhile Char.isDigit = d :: ds' := by
    rw [List.takeWhile_append_of_pos hdsd, List.takeWhile_cons_of_neg (by decide)]
    simp
  have hdw : ((d :: ds') ++ '.' :: fs).dropWhile Char.isDigit = '.' :: fs := by
    rw [List.dropWhile_append_of_pos hdsd, List.dropWhile_cons_of_neg (by decide)]
  have hfs_dw : fs.dropWhile Char.isDigit = [] := List.dropWhile_eq_nil_iff.mpr hfsd
  have hfs_tw : fs.takeWhile Char.isDigit = fs := List.takeWhile_eq_self_iff.mpr hfsd
  simp only [pyFloat?, hl, List.isEmpty_cons, Bool.false_eq_true, if_false,
    List.headD_cons]
  rw [if_neg (fun hc => hsign (Or.inl hc)), if_neg hsign]
  rw [← hl, htw, hdw]
  simp only [List.isEmpty_cons, Bool.false_eq_true, if_false, List.headD_cons,
    List.drop_one, List.tail_cons, hfs_dw, hfs_tw]
  rw [if_pos trivial, if_pos (by simp), one_mul]

theorem pyFloat?_digits (ds : List Char) (hds : ds ≠ [])
    (hdsd : ∀ c ∈ ds, c.isDigit) :
    pyFloat? (String.mk ds) = some ((digitsToNat ds : ℚ)) := by
  obtain ⟨d, ds', rfl⟩ : ∃ d ds', ds = d :: ds' := by
    cases ds with
    | nil => exact absurd rfl hds
    | cons d ds' => exact ⟨d, ds', rfl⟩
  have hd : d.isDigit := hdsd d (by simp)
  have hsign := char_digit_not_sign d hd
  have htw : (d :: ds').takeWhile Char.isDigit = d :: ds' :=
    List.takeWhile_eq_self_iff.mpr hdsd
  have hdw : (d :: ds').dropWhile Char.isDigit = [] :=
    List.dropWhile_eq_nil_iff.mpr hdsd
  simp only [pyFloat?, List.isEmpty_cons, Bool.false_eq_true, if_false,
    List.headD_cons]
  rw [if_neg (fun hc => hsign (Or.inl hc)), if_neg hsign]
  rw [htw, hdw]
  simp only [List.isEmpty_nil, if_true, List.isEmpty_cons, Bool.false_eq_true, if_false]
  rw [one_mul]

/-- General round-trip through `_process_data` and `_generate_frequency_chart`:
when the first `freq=` token's group is a plain decimal numeral (digit run,
optional dot and digit run), the renamed column is `<group>GHz`, the computed
float equals the group's exact decimal value, and the label is its 2-decimal
format. -/
theorem freq_pipeline_general (col : String) (ds fs : List Char) (dotted : Bool)
    (hsearch : searchFreq col.data = some (if dotted then ds ++ '.' :: fs else ds))
    (hds : ds ≠ []) (hdsd : ∀ c ∈ ds, c.isDigit) (hfsd : ∀ c ∈ fs, c.isDigit)
    (hfs0 : dotted = false → fs = []) :
    processCol col = String.mk (if dotted then ds ++ '.' :: fs else ds) ++ "GHz" ∧
    generateFreqVal? (processCol col) = some (decValue ds fs) ∧
    generateLabel (processCol col) = formatF2 (decValue ds fs) := by
  obtain ⟨d, ds', rfl⟩ : ∃ d ds', ds = d :: ds' := by
    cases ds with
    | nil => exact absurd rfl hds
    | cons d ds' => exact ⟨d, ds', rfl⟩
  have hproc : processCol col = String.mk (if dotted then (d :: ds') ++ '.' :: fs
      else d :: ds') ++ "GHz" := by
    rw [processCol, hsearch]
  cases dotted with
  | true =>
    simp only [if_true] at hproc hsearch ⊢
    have hdata : (String.mk ((d :: ds') ++ '.' :: fs) ++ "GHz").data =
        ((d :: ds') ++ '.' :: fs) ++ "GHz".data := mk_append_data _ _
    have hassoc : ((d :: ds') ++ '.' :: fs) ++ "GHz".data =
        d :: (ds' ++ '.' :: (fs ++ "GHz".data)) := by
      simp
    have htry : tryNumGHzAt ((d :: ds') ++ '.' :: (fs ++ "GHz".data)) =
        some ((d :: ds') ++ '.' :: fs) := tryNumGHzAt_dotted _ _ hds hdsd hfsd
    have hsng : searchNumGHz ((String.mk ((d :: ds') ++ '.' :: fs) ++ "GHz").data) =
        some ((d :: ds') ++ '.' :: fs) := by
      rw [hdata, hassoc]
      exact searchNumGHz_head d _ _ (by simpa using htry)
    have hfl : pyFloat? (String.mk ((d :: ds') ++ '.' :: fs)) =
        some (decValue (d :: ds') fs) := pyFloat?_digits_dot _ _ hds hdsd hfsd
    refine ⟨hproc, ?_, ?_⟩
    · rw [hproc, generateFreqVal?, hsng]
      show some ((pyFloat? (String.mk ((d :: ds') ++ '.' :: fs))).getD 0) = _
      rw [hfl]
      rfl
    · rw [hproc, generateLabel, hsng]
      show formatF2 ((pyFloat? (String.mk ((d :: ds') ++ '.' :: fs))).getD 0) = _
      rw [hfl]
      rfl
  | false =>
    have hfs : fs = [] := hfs0 rfl
    subst hfs
    simp only [Bool.false_eq_true, if_false] at hproc hsearch ⊢
    have hdata : (String.mk (d :: ds') ++ "GHz").data =
        (d :: ds') ++ "GHz".data := mk_append_data _ _
    have htry : tryNumGHzAt ((d :: ds') ++ "GHz".data) = some (d :: ds') :=
      tryNumGHzAt_plain _ hds hdsd
    have hsng : searchNumGHz ((String.mk (d :: ds') ++ "GHz").data) = some (d :: ds') := by
      rw [hdata]
      exact searchNumGHz_head d _ _ (by simpa using htry)
    have hfl : pyFloat? (String.mk (d :: ds')) = some (decValue (d :: ds') []) := by
      rw [pyFloat?_digits _ hds hdsd, decValue_nil]
    refine ⟨hproc, ?_, ?_⟩
    · rw [hproc, generateFreqVal?, hsng]
      show some ((pyFloat? (String.mk (d :: ds'))).getD 0) = _
      rw [hfl]
      rfl
    · rw [hproc, generateLabel, hsng]
      show formatF2 ((pyFloat? (String.mk (d :: ds'))).getD 0) = _
      rw [hfl]
      rfl

/-- Claim C9: a measurement column whose name embeds a `freq=<number>GHz` token
has its numeric component parsed as a float and formatted to two decimal places
for display: the chart label is `formatF2` of the token's exact decimal value;
in particular `freq=2.40GHz` yields the numeric value `2.40` (= 12/5) and the
display label `"2.40"`. -/
theorem freq_token_two_decimal_label (col : String) (ds fs : List Char) (dotted : Bool)
    (hsearch : searchFreq col.data = some (if dotted then ds ++ '.' :: fs else ds))
    (hds : ds ≠ []) (hdsd : ∀ c ∈ ds, c.isDigit) (hfsd : ∀ c ∈ fs, c.isDigit)
    (hfs0 : dotted = false → fs = []) :
    processCol col = String.mk (if dotted then ds ++ '.' :: fs else ds) ++ "GHz" ∧
    generateFreqVal? (processCol col) = some (decValue ds fs) ∧
    generateLabel (processCol col) = formatF2 (decValue ds fs) ∧
    generateFreqVal? (processCol "freq=2.40GHz") = some (12 / 5) ∧
    generateLabel (processCol "freq=2.40GHz") = "2.40" := by
  have hgen := freq_pipeline_general col ds fs dotted hsearch hds hdsd hfsd hfs0
  have hconc := freq_pipeline_general "freq=2.40GHz" ['2'] ['4', '0'] true
    (by decide) (by decide) (by decide) (by decide) (by decide)
  have hdv : decValue ['2'] ['4', '0'] = 12 / 5 := by
    have h2 : digitsToNat ['2'] = 2 := by decide
    have h40 : digitsToNat ['4', '0'] = 40 := by decide
    rw [decValue, h2, h40]
    norm_num
  have hfmt : formatF2 (12 / 5) = "2.40" := by
    have hfl : ⌊(12 / 5 : ℚ) * 100 + 1 / 2⌋ = 240 := by
      rw [Int.floor_eq_iff]
      constructor <;> norm_num
    simp only [formatF2, hfl]
    decide
  exact ⟨hgen.1, hgen.2.1, hgen.2.2,
    by rw [hconc.2.1, hdv],
    by rw [hconc.2.2, hdv, hfmt]⟩

/-- Witness for C9 at the column name `freq=2.40GHz` itself. -/
theorem freq_token_two_decimal_label_witness :
    processCol "freq=2.40GHz" = String.mk (['2'] ++ '.' :: ['4', '0']) ++ "GHz" ∧
    generateFreqVal? (processCol "freq=2.40GHz") = some (decValue ['2'] ['4', '0']) ∧
    generateLabel (processCol "freq=2.40GHz") = formatF2 (decValue ['2'] ['4', '0']) ∧
    generateFreqVal? (processCol "freq=2.40GHz") = some (12 / 5) ∧
    generateLabel (processCol "freq=2.40GHz") = "2.40" := by
  have h := freq_token_two_decimal_label "freq=2.40GHz" ['2'] ['4', '0'] true
    (by decide) (by decide) (by decide) (by decide) (by decide)
  simpa using h
